import Mathlib

/-!
Verification development for a small hand-written HTTP/1.1 server
(`app/httpserver.py`).  The Python code is shallowly embedded here:

* byte strings and text strings are both modelled as `List Char`
  (all wire data handled by the server is ASCII, and the server's
  `decode("utf-8")` step is the identity on such data);
* Python `s.split(sep)` (with a non-empty separator) is `splitOnL`;
* Python `sub in s` is `hasSub`;
* Python dicts (request headers, response headers, extracted path
  parameters) are association lists with unique keys, built by repeated
  assignment `dictSet` (last write wins, first insertion fixes the
  position, exactly like CPython dicts) and read by `dictGet`;
* code that can raise returns `Except`/`Option`, or a dedicated result
  inductive where the distinction between "no data" and "raised" matters;
* `gzip.compress` is an abstract parameter of the functions that use it.

Sections follow the Python source: string helpers, `HttpRequest` /
`HttpResponse` (serialization and `_compress`), `HttpRouter` (matching,
parameter extraction, registration), and `HttpServer` (`_read_request`,
the dispatch part of `_handle_request`, `_handle_connection`).
-/

/-- Characters of a string literal; used to write `List Char` constants. -/
def chars (s : String) : List Char := s.data

/-- First occurrence of the (non-empty) separator `sep` in `s`:
`some (pre, post)` with `s = pre ++ sep ++ post` and `pre` minimal. -/
def splitFirst (sep : List Char) : List Char → Option (List Char × List Char)
  | [] => none
  | c :: rest =>
    if List.isPrefixOf sep (c :: rest) then some ([], (c :: rest).drop sep.length)
    else
      match splitFirst sep rest with
      | some (pre, post) => some (c :: pre, post)
      | none => none

/-- Fuel-driven worker for `splitOnL`; fuel `s.length + 1` always suffices
for a non-empty separator because every split consumes at least one
character of `s`. -/
def splitOnGo (sep : List Char) : Nat → List Char → List (List Char)
  | 0, s => [s]
  | n + 1, s =>
    match splitFirst sep s with
    | none => [s]
    | some (pre, post) => pre :: splitOnGo sep n post

/-- Python `s.split(sep)` for a non-empty separator `sep`. -/
def splitOnL (sep s : List Char) : List (List Char) :=
  splitOnGo sep (s.length + 1) s

/-- Python `sep in s` (substring containment) for a non-empty `sep`. -/
def hasSub (sep s : List Char) : Bool := (splitFirst sep s).isSome

/-- Python dict assignment `d[k] = v`: overwrite in place if the key is
present (keeping its position), otherwise append. -/
def dictSet {β : Type} (d : List (List Char × β)) (k : List Char) (v : β) :
    List (List Char × β) :=
  if d.any (fun kv => kv.1 == k) then
    d.map (fun kv => if kv.1 == k then (k, v) else kv)
  else d ++ [(k, v)]

/-- Python `d.get(k)`: value of the first (with unique keys: the only)
binding of `k`. -/
def dictGet {β : Type} (d : List (List Char × β)) (k : List Char) : Option β :=
  (d.find? (fun kv => kv.1 == k)).map Prod.snd

/-- Python `s.strip()` (ASCII whitespace). -/
def stripWs (s : List Char) : List Char :=
  ((s.dropWhile Char.isWhitespace).reverse.dropWhile Char.isWhitespace).reverse

/-- Python `s.rstrip("/")`. -/
def rstripSlash (s : List Char) : List Char :=
  (s.reverse.dropWhile (fun c => c == '/')).reverse

/-- The header terminator `"\r\n\r\n"`. -/
def crlf2 : List Char := chars "\r\n\r\n"

/-- The line separator `"\r\n"`. -/
def crlf : List Char := chars "\r\n"

/-- The header name/value separator `": "`. -/
def colonSp : List Char := chars ": "

/-- `HttpRequest` of `app/httpserver.py` (method, raw path, header dict,
body). The derived `query_params` field is not needed by any claim and is
omitted. -/
structure HttpRequestM where
  method : List Char
  path : List Char
  headers : List (List Char × List Char)
  body : List Char
deriving DecidableEq

/-- Value stored in a Python response-header dict: the code stores both
strings (`Content-Encoding`) and ints (`Content-Length`). -/
inductive HVal where
  | s (v : List Char)
  | n (v : Int)
deriving DecidableEq

/-- Rendering of a header value by an f-string, as in `serialize`. -/
def HVal.render : HVal → List Char
  | .s v => v
  | .n v => chars (toString v)

/-- `HttpResponse` of `app/httpserver.py`. -/
structure HttpResponseM where
  status_code : Int
  headers : List (List Char × HVal)
  body : List Char
deriving DecidableEq

/-- `HttpResponse._STATUS_MESSAGES.get`: reason phrase lookup with no
fallback (`none` for any unknown status code). -/
def STATUS_MESSAGES (c : Int) : Option (List Char) :=
  if c = 200 then some (chars "OK")
  else if c = 400 then some (chars "Bad Request")
  else if c = 404 then some (chars "Not Found")
  else if c = 500 then some (chars "Internal Server Error")
  else none

/-- `HttpResponse.serialize`: status line (a missing reason phrase is
rendered as the literal text `None` by the f-string), headers in
insertion order, blank line, body. -/
def serialize (r : HttpResponseM) : List Char :=
  let status_message : List Char :=
    match STATUS_MESSAGES r.status_code with
    | some m => m
    | none => chars "None"
  let response_line : List Char :=
    chars "HTTP/1.1 " ++ chars (toString r.status_code) ++ [' '] ++
      status_message ++ crlf
  let headerBlock : List Char :=
    r.headers.foldl (fun acc kv => acc ++ kv.1 ++ colonSp ++ kv.2.render ++ crlf) []
  (response_line ++ headerBlock ++ crlf) ++ r.body

/-- `HttpResponse._PREFERRED_ENCODINGS`. -/
def PREFERRED_ENCODINGS : List (List Char) := [chars "gzip"]

/-- Keys of `HttpResponse._CONTENT_ENCODERS` (the only encoder is
`gzip.compress`, which is abstracted as a function parameter below). -/
def CONTENT_ENCODER_KEYS : List (List Char) := [chars "gzip"]

/-- `HttpResponse._get_preferred_encoding`: split the `Accept-Encoding`
header on commas, strip each entry, and return the first preferred
encoding contained in that list (only `gzip`), else `none`. -/
def get_preferred_encoding (accepted_encoding_header : List Char) :
    Option (List Char) :=
  let accepted_encodings :=
    (splitOnL (chars ",") accepted_encoding_header).map stripWs
  PREFERRED_ENCODINGS.find? (fun enc => accepted_encodings.any (fun a => a == enc))

/-- `HttpResponse._compress`, with `gz` standing for `gzip.compress`:
no-op if the response already has a `Content-Encoding` header or the
requested encoding is unsupported; otherwise replace the body with the
compressed body and set `Content-Encoding` and `Content-Length` (an int). -/
def compress (gz : List Char → List Char) (content_encoding : List Char)
    (r : HttpResponseM) : HttpResponseM :=
  if r.headers.any (fun kv => kv.1 == chars "Content-Encoding") then r
  else if CONTENT_ENCODER_KEYS.contains content_encoding = false then r
  else
    let compressed_body := gz r.body
    { status_code := r.status_code
      headers :=
        dictSet (dictSet r.headers (chars "Content-Encoding") (.s content_encoding))
          (chars "Content-Length") (.n compressed_body.length)
      body := compressed_body }

/-- `HttpResponseBuilder(status).build()` with no headers or body set. -/
def buildBare (status : Int) : HttpResponseM :=
  { status_code := status, headers := [], body := [] }

/-- Value of a non-empty digit string, else `none`. -/
def digitsVal (ds : List Char) : Option Nat :=
  if ds = [] then none
  else ds.foldl (fun acc c =>
    match acc with
    | some n => if c.isDigit then some (n * 10 + (c.toNat - 48)) else none
    | none => none) (some 0)

/-- Python `int(s)` on the strings this server can meet in a
`Content-Length` header: optional surrounding whitespace, optional sign,
decimal digits; anything else raises (`none`). -/
def pyInt (s : List Char) : Option Int :=
  match stripWs s with
  | '-' :: ds => (digitsVal ds).map (fun n => -(n : Int))
  | '+' :: ds => (digitsVal ds).map (fun n => (n : Int))
  | ds => (digitsVal ds).map (fun n => (n : Int))

/-- Result of `HttpServer._read_request`: `noRequest` models `return None`
(peer closed before sending bytes), `parseError` models an exception
escaping the function (malformed request line, a header line with two
`": "` occurrences, or a non-numeric `Content-Length`), `ok` a parsed
request. -/
inductive ReadResult where
  | noRequest
  | parseError
  | ok (r : HttpRequestM)
deriving DecidableEq

/-- Header-reading loop of `HttpServer._read_request`.  The byte source is
the list of chunks successive `recv` calls yield; the end of the list — or
an empty chunk, which for a stream socket means the peer closed — is
end-of-stream.  Returns the accumulated `header_buff`, the seeded
`body_buff`, and the chunks not yet consumed.  Mirrors the Python loop:
when the terminator appears inside one chunk, the chunk is split on it and
`buff_parts[1]` (only) seeds the body; when the terminator only appears in
the accumulated buffer (split across reads), the loop just exits. -/
def readHeaders : List (List Char) → List Char → List Char × List Char × List (List Char)
  | [], header_buff => (header_buff, [], [])
  | c :: rest, header_buff =>
    if hasSub crlf2 header_buff then (header_buff, [], c :: rest)
    else if c = [] then (header_buff, [], [])
    else if hasSub crlf2 c then
      (header_buff ++ (splitOnL crlf2 c).headD [] ++ crlf2,
        (splitOnL crlf2 c).tail.headD [], rest)
    else readHeaders rest (header_buff ++ c)

/-- Body-reading loop of `HttpServer._read_request`: keep appending chunks
while the buffer is shorter than the declared content length; stop at
end-of-stream (yielding a short body). -/
def readBody : List (List Char) → List Char → Int → List Char
  | chunks, body_buff, content_length =>
    if (body_buff.length : Int) < content_length then
      match chunks with
      | [] => body_buff
      | c :: rest =>
        if c = [] then body_buff else readBody rest (body_buff ++ c) content_length
    else body_buff

/-- Header lines that contain `": "`, each split on `": "`
(`[line.split(": ") for line in request_lines[1:] if ": " in line]`). -/
def headerPairs (ls : List (List Char)) : List (List (List Char)) :=
  (ls.filter (fun l => hasSub colonSp l)).map (fun l => splitOnL colonSp l)

/-- The dict comprehension `{k: v for k, v in pairs}` over the split
header lines. -/
def buildHeaderDict (pairs : List (List (List Char))) :
    List (List Char × List Char) :=
  pairs.foldl (fun d p => dictSet d (p.headD []) (p.tail.headD [])) []

/-- Parsing part of `HttpServer._read_request`, applied to the outcome of
the header-reading loop: empty header buffer means no request; the request
line must split on spaces into exactly three parts (else the code raises);
header lines without `": "` are ignored, and a line splitting into more
than two parts makes the `k, v` unpacking raise; the body is read beyond
the seed only for `POST` with a truthy (present, non-empty) and numeric
`Content-Length`. -/
def read_request_core (header_buff body_seed : List Char)
    (rest : List (List Char)) : ReadResult :=
  if header_buff = [] then .noRequest
  else
    match splitOnL (chars " ") ((splitOnL crlf header_buff).headD []) with
    | [method, path, _] =>
      if (headerPairs (splitOnL crlf header_buff).tail).all
          (fun p => p.length = 2) then
        match dictGet (buildHeaderDict (headerPairs (splitOnL crlf header_buff).tail))
            (chars "Content-Length") with
        | some cl =>
          if method = chars "POST" ∧ cl ≠ [] then
            match pyInt cl with
            | some n =>
              .ok ⟨method, path,
                buildHeaderDict (headerPairs (splitOnL crlf header_buff).tail),
                readBody rest body_seed n⟩
            | none => .parseError
          else
            .ok ⟨method, path,
              buildHeaderDict (headerPairs (splitOnL crlf header_buff).tail),
              body_seed⟩
        | none =>
          .ok ⟨method, path,
            buildHeaderDict (headerPairs (splitOnL crlf header_buff).tail),
            body_seed⟩
      else .parseError
    | _ => .parseError

/-- `HttpServer._read_request` over a list of `recv` chunks. -/
def read_request (chunks : List (List Char)) : ReadResult :=
  read_request_core (readHeaders chunks []).1 (readHeaders chunks []).2.1
    (readHeaders chunks []).2.2

/-- Python `route_part.startswith("{") and route_part.endswith("}")`. -/
def isPh (seg : List Char) : Bool :=
  List.isPrefixOf (chars "\x7b") seg && List.isSuffixOf (chars "\x7d") seg

/-- `HttpRouter.Route._matches_with_dynamic_path`: split both the route
pattern and the (query-stripped) path on `/`; segment counts must agree;
a `{...}` route segment is skipped (it matches whatever stands there,
including the empty segment), any other segment must be equal. -/
def matches_with_dynamic_path (route_path path : List Char) : Bool :=
  let path_parts := splitOnL (chars "/") path
  let route_parts := splitOnL (chars "/") route_path
  if path_parts.length = route_parts.length then
    (path_parts.zip route_parts).all (fun pr => isPh pr.2 || pr.1 == pr.2)
  else false

/-- `HttpRouter.Route.matches_with`: strip the query string, then accept
when the strings agree up to trailing `/`, or when the dynamic
segment-by-segment comparison accepts. -/
def matches_with (route_path path0 : List Char) : Bool :=
  let path := (splitOnL (chars "?") path0).headD []
  if rstripSlash path = rstripSlash route_path then true
  else if matches_with_dynamic_path route_path path then true
  else false

/-- Python `\w` on ASCII data (the route patterns and paths this server
handles): letters, digits, underscore. -/
def isWordChar (c : Char) : Bool := c.isAlphanum || c = '_'

/-- The character class `[\w.-]` used for placeholder values. -/
def isWordDotDash (c : Char) : Bool := isWordChar c || c = '.' || c = '-'

/-- Token of the regex `re.sub(r"\{([\w\.-]*)\}", r"([\\w\\.-]+)",
route.path)` that `get_dynamic_segments` builds and then matches:
a literal character, the any-character `.` (a pattern dot outside a
placeholder stays a regex metacharacter), or a capturing group
`([\w.-]+)` standing for placeholder `{name}`. -/
inductive PTok where
  | lit (c : Char)
  | anyc
  | ph (name : List Char)
deriving DecidableEq

/-- Discriminator for capturing-group tokens. -/
def isPhTok : PTok → Bool
  | .ph _ => true
  | _ => false

/-- Fuel-driven scanner compiling a route pattern to regex tokens the way
`re.sub(r"\{([\w\.-]*)\}", ...)` rewrites it: at a `{`, a maximal run of
`[\w.-]` characters followed by `}` forms a placeholder; otherwise the `{`
stays a literal and scanning resumes after it (like `re.sub` moving one
position forward).  Faithful for patterns whose characters outside
placeholders carry no regex meaning other than `.` (the patterns this
server is used with: letters, digits, `/`, `_`, `-`, `.`, braces). -/
def compileToksGo : Nat → List Char → List PTok
  | 0, _ => []
  | _ + 1, [] => []
  | f + 1, '{' :: rest =>
    match (rest.drop (rest.takeWhile isWordDotDash).length) with
    | '}' :: rest2 => .ph (rest.takeWhile isWordDotDash) :: compileToksGo f rest2
    | _ => .lit '{' :: compileToksGo f rest
  | f + 1, '.' :: rest => .anyc :: compileToksGo f rest
  | f + 1, c :: rest => .lit c :: compileToksGo f rest

/-- Compiled regex tokens of a route pattern. -/
def compileToks (route_path : List Char) : List PTok :=
  compileToksGo route_path.length route_path

/-- Backtracking search for a capturing group `([\w.-]+)`: try group
lengths from the greedy maximum down to 1, continuing with `cont` (the
match of the remaining tokens) on the rest of the input, exactly like the
regex engine's greedy `+` with backtracking. -/
def tryLens (cont : List Char → Option (List (List Char))) (xs : List Char) :
    Nat → Option (List Char × List (List Char))
  | 0 => none
  | k + 1 =>
    match cont (xs.drop (k + 1)) with
    | some gs => some (xs.take (k + 1), gs)
    | none => tryLens cont xs k

/-- `re.match` of the compiled pattern against `path`: anchored at the
start, free at the end (a prefix match suffices), returning the list of
captured groups on success. -/
def rmatch : List PTok → List Char → Option (List (List Char))
  | [], _ => some []
  | .lit _ :: _, [] => none
  | .lit c :: ts, x :: xs2 => if x = c then rmatch ts xs2 else none
  | .anyc :: _, [] => none
  | .anyc :: ts, _ :: xs2 => rmatch ts xs2
  | .ph _ :: ts, xs =>
    match tryLens (rmatch ts) xs (xs.takeWhile isWordDotDash).length with
    | some (g, gs) => some (g :: gs)
    | none => none

/-- Captured placeholder names: the second regex of
`get_dynamic_segments` substitutes only `\{(\w*)\}` (names over `\w`,
without dots or dashes) and re-matches the pattern against itself, so
exactly the placeholders whose name is a `\w*` word contribute a name
group. -/
def phNames (toks : List PTok) : List (List Char) :=
  toks.filterMap (fun t =>
    match t with
    | .ph n => if n.all isWordChar then some n else none
    | _ => none)

/-- `HttpRouter.Route.get_dynamic_segments`: match the compiled pattern
against the path (`None` when the regex does not match, e.g. a placeholder
facing an empty segment); on success zip the placeholder names — an empty
name becomes the positional `seg{i}` — with the captured values (`zip`
truncates to the shorter list) and build the dict. -/
def get_dynamic_segments (route_path path : List Char) :
    Option (List (List Char × List Char)) :=
  match rmatch (compileToks route_path) path with
  | none => none
  | some segment_values =>
    let segment_names :=
      (phNames (compileToks route_path)).enum.map
        (fun p => if p.2 = [] then chars "seg" ++ (Nat.repr p.1).data else p.2)
    some ((segment_names.zip segment_values).foldl
      (fun d p => dictSet d p.1 p.2) [])

/-- `HttpRouter.Route`, the handler left abstract. -/
structure RouteM (α : Type) where
  path : List Char
  handler : α
deriving DecidableEq

/-- Registration failure of `HttpRouter.add_route`: the two `ValueError`s
the code can raise. -/
inductive RegError where
  | invalidPath
  | duplicateRoute
deriving DecidableEq

/-- `HttpRouter.Route._validate_path`: every `{` pushes, every `}` must
pop a `{` (the stack holds only `{`, so the `stack[-1] != "{"` test is
kept but never fires), and the stack must end empty. -/
def validateGo : List Char → List Char → Bool
  | [], stack => stack.isEmpty
  | c :: rest, stack =>
    if c = '{' then validateGo rest ('{' :: stack)
    else if c = '}' then
      match stack with
      | [] => false
      | t :: ts => if t ≠ '{' then false else validateGo rest ts
    else validateGo rest stack

/-- Brace balance check run by the `Route` constructor. -/
def validate_path (path : List Char) : Bool := validateGo path []

/-- `HttpRouter.add_route`: first the conflict scan over the existing
routes (raising the duplicate-route error), then the `Route` constructor
validates the pattern (raising the invalid-path error), then append. -/
def add_route {α : Type} (routes : List (RouteM α)) (path : List Char)
    (handler : α) : Except RegError (List (RouteM α)) :=
  if routes.any (fun r => matches_with r.path path) then .error .duplicateRoute
  else if validate_path path then .ok (routes ++ [⟨path, handler⟩])
  else .error .invalidPath

/-- Successive `add_route` calls building a route table. -/
def addAll {α : Type} : List (RouteM α) → List (List Char × α) →
    Except RegError (List (RouteM α))
  | routes, [] => .ok routes
  | routes, (p, h) :: rest =>
    match add_route routes p h with
    | .ok routes2 => addAll routes2 rest
    | .error e => .error e

/-- `HttpRouter.get_handler`, observably: scan the routes in registration
order; for the first route whose `matches_with` accepts, return its
handler together with the extracted dynamic segments (the empty list when
`get_dynamic_segments` is falsy — `None` or the empty dict — in which
case the Python code calls the handler with the request only); `none`
stands for the synthesized `lambda req: HttpResponseBuilder(404).build()`
fallback, which consults no route. -/
def get_handler {α : Type} : List (RouteM α) → List Char →
    Option (α × List (List Char × List Char))
  | [], _ => none
  | r :: rest, path =>
    if matches_with r.path path then
      match get_dynamic_segments r.path path with
      | some (p :: ps) => some (r.handler, p :: ps)
      | _ => some (r.handler, [])
    else get_handler rest path

/-- A user handler as the dispatcher sees it: a function of the request
and the extracted path parameters (empty when called with the request
only) that may raise. -/
def Handler : Type :=
  HttpRequestM → List (List Char × List Char) → Except Unit HttpResponseM

/-- Compression negotiation inside `HttpServer._handle_request`: if the
request has a truthy `Accept-Encoding` header and a preferred encoding is
found, `response._compress` is applied; otherwise the response passes
through unchanged. -/
def negotiate (gz : List Char → List Char) (req : HttpRequestM)
    (response : HttpResponseM) : HttpResponseM :=
  match dictGet req.headers (chars "Accept-Encoding") with
  | some accept_encoding =>
    if accept_encoding = [] then response
    else
      match get_preferred_encoding accept_encoding with
      | some response_encoding => compress gz response_encoding response
      | none => response
  | none => response

/-- The `try` block of `HttpServer._handle_request`: look up the handler
(the 404 builder when no route matches), invoke it, then negotiate
compression.  Only the handler can raise (`compress` is a total
function). -/
def dispatchTry (gz : List Char → List Char) (routes : List (RouteM Handler))
    (req : HttpRequestM) : Except Unit HttpResponseM :=
  match get_handler routes req.path with
  | some (h, segs) =>
    match h req segs with
    | .ok response => .ok (negotiate gz req response)
    | .error e => .error e
  | none => .ok (negotiate gz req (buildBare 404))

/-- Dispatch as `HttpServer._handle_request` performs it: any error from
the `try` block is caught and replaced by `HttpResponseBuilder(500).build()`
(status 500, no headers, empty body); nothing is re-raised. -/
def dispatch (gz : List Char → List Char) (routes : List (RouteM Handler))
    (req : HttpRequestM) : HttpResponseM :=
  match dispatchTry gz routes req with
  | .ok response => response
  | .error _ => buildBare 500

/-- One connection end-to-end (`HttpServer._handle_connection` around
`_handle_request`): the bytes written back, `none` when nothing is sent —
either the peer sent nothing, or reading raised and the exception was
caught and logged at the connection boundary. -/
def handle_connection (gz : List Char → List Char)
    (routes : List (RouteM Handler)) (chunks : List (List Char)) :
    Option (List Char) :=
  match read_request chunks with
  | .ok req => some (serialize (dispatch gz routes req))
  | .noRequest => none
  | .parseError => none

/-- A worker pool serving a sequence of independent connections: each
connection is handled on its own, sharing only the read-only route
table. -/
def handle_connections (gz : List Char → List Char)
    (routes : List (RouteM Handler)) (conns : List (List (List Char))) :
    List (Option (List Char)) :=
  conns.map (handle_connection gz routes)

/-- A trivial always-200 handler used by concrete route tables below. -/
def handlerOk : Handler := fun _ _ => .ok (buildBare 200)

/-- A one-route table whose only pattern is `/x`. -/
def routesC3 : List (RouteM Handler) := [⟨chars "/x", handlerOk⟩]

/-- A request for the unrouted path `/y`. -/
def reqC3 : HttpRequestM := ⟨chars "GET", chars "/y", [], []⟩

/-- A fixed 200 response with a body, used by the C7 witness table. -/
def respC7 : HttpResponseM :=
  ⟨200, [(chars "Content-Type", HVal.s (chars "text/plain"))], chars "Hello"⟩

/-- A handler that always returns `respC7`. -/
def handlerC7 : Handler := fun _ _ => .ok respC7

/-- A one-route table for the C7 witness. -/
def routesC7 : List (RouteM Handler) := [⟨chars "/", handlerC7⟩]

/-- A request with `Accept-Encoding: gzip`. -/
def reqC7 : HttpRequestM :=
  ⟨chars "GET", chars "/", [(chars "Accept-Encoding", chars "gzip")], []⟩

/-- A request with the unsupported `Accept-Encoding: br`. -/
def reqC7br : HttpRequestM :=
  ⟨chars "GET", chars "/", [(chars "Accept-Encoding", chars "br")], []⟩

/-- A handler that always raises. -/
def handlerBoom : Handler := fun _ _ => .error ()

/-- A one-route table whose handler raises on every request. -/
def routesC8 : List (RouteM Handler) := [⟨chars "/x", handlerBoom⟩]

/-- A request routed to the raising handler. -/
def reqC8 : HttpRequestM := ⟨chars "GET", chars "/x", [], []⟩

/-! ### Helper lemmas shared by several claims -/

/-- A Boolean list-prefix witnesses a decomposition of its superlist. -/
theorem isPrefixOf_decomp {l : List Char} :
    ∀ {s : List Char}, List.isPrefixOf l s = true → s = l ++ s.drop l.length := by
  induction l with
  | nil =>
    intro s h
    rfl
  | cons a l2 ih =>
    intro s h
    cases s with
    | nil => cases h
    | cons b s2 =>
      rw [List.isPrefixOf, Bool.and_eq_true, beq_iff_eq] at h
      obtain ⟨rfl, h2⟩ := h
      simp only [List.length_cons]
      rw [List.drop_succ_cons, List.cons_append, ← ih h2]

/-- A successful `splitFirst` decomposes its input. -/
theorem splitFirst_eq_append {sep s pre post : List Char}
    (h : splitFirst sep s = some (pre, post)) : s = pre ++ sep ++ post := by
  induction s generalizing pre with
  | nil => simp [splitFirst] at h
  | cons c rest ih =>
    rw [splitFirst] at h
    by_cases hp : List.isPrefixOf sep (c :: rest) = true
    · rw [if_pos hp] at h
      simp only [Option.some.injEq, Prod.mk.injEq] at h
      obtain ⟨h1, h2⟩ := h
      subst h1
      rw [List.nil_append, ← h2]
      exact isPrefixOf_decomp hp
    · rw [if_neg hp] at h
      cases hsf : splitFirst sep rest with
      | none => rw [hsf] at h; simp at h
      | some pr =>
        rw [hsf] at h
        cases pr with
        | mk pre2 post2 =>
          simp only [Option.some.injEq, Prod.mk.injEq] at h
          obtain ⟨h1, h2⟩ := h
          subst h2
          rw [← h1, List.cons_append, List.cons_append]
          rw [ih hsf]

/-- Replacing the binding of `k` makes `k`'s binding `(k, v)` (when `k`
is bound at all). -/
theorem find_dictReplace_self {β : Type} (d : List (List Char × β))
    (k : List Char) (v : β) :
    (d.map (fun kv => if kv.1 == k then (k, v) else kv)).find?
        (fun kv => kv.1 == k) =
      if d.any (fun kv => kv.1 == k) then some (k, v) else none := by
  induction d with
  | nil => rfl
  | cons kv rest ih =>
    by_cases hh : (kv.1 == k) = true
    · rw [List.map_cons, if_pos hh]
      rw [List.find?_cons_of_pos _ (by simp)]
      simp [List.any_cons, hh]
    · rw [List.map_cons, if_neg hh]
      rw [List.find?_cons_of_neg _ (by simpa using hh)]
      rw [ih]
      have hf : (kv.1 == k) = false := Bool.eq_false_iff.mpr hh
      simp only [List.any_cons, hf, Bool.false_or]

/-- Replacing the binding of another key `k2` does not change what is
found for `k`. -/
theorem find_dictReplace_ne {β : Type} (d : List (List Char × β))
    (k k2 : List Char) (v : β) (hne : k ≠ k2) :
    (d.map (fun kv => if kv.1 == k2 then (k2, v) else kv)).find?
        (fun kv => kv.1 == k) =
      d.find? (fun kv => kv.1 == k) := by
  induction d with
  | nil => rfl
  | cons kv rest ih =>
    by_cases hh : (kv.1 == k2) = true
    · have hk2 : kv.1 = k2 := by simpa using hh
      rw [List.map_cons, if_pos hh]
      rw [List.find?_cons_of_neg _ (by simp [Ne.symm hne])]
      rw [List.find?_cons_of_neg _ (by simp [hk2, Ne.symm hne])]
      exact ih
    · rw [List.map_cons, if_neg hh]
      by_cases hkk : (kv.1 == k) = true
      · rw [@List.find?_cons_of_pos _ (fun kv => kv.1 == k) kv _ hkk]
        rw [@List.find?_cons_of_pos _ (fun kv => kv.1 == k) kv _ hkk]
      · rw [@List.find?_cons_of_neg _ (fun kv => kv.1 == k) kv _ hkk]
        rw [@List.find?_cons_of_neg _ (fun kv => kv.1 == k) kv _ hkk]
        exact ih

/-- Assigning a key and reading it back. -/
theorem dictGet_dictSet_self {β : Type} (d : List (List Char × β))
    (k : List Char) (v : β) : dictGet (dictSet d k v) k = some v := by
  unfold dictGet dictSet
  by_cases hk : d.any (fun kv => kv.1 == k) = true
  · rw [if_pos hk, find_dictReplace_self, if_pos hk]
    rfl
  · rw [if_neg hk, List.find?_append]
    have hnone : d.find? (fun kv => kv.1 == k) = none := by
      rw [List.find?_eq_none]
      intro p hp hpk
      exact hk (List.any_eq_true.mpr ⟨p, hp, hpk⟩)
    rw [hnone]
    simp [List.find?]

/-- Assigning one key leaves other keys' values unchanged. -/
theorem dictGet_dictSet_ne {β : Type} (d : List (List Char × β))
    (k k2 : List Char) (v : β) (hne : k ≠ k2) :
    dictGet (dictSet d k2 v) k = dictGet d k := by
  unfold dictGet dictSet
  by_cases hk : d.any (fun kv => kv.1 == k2) = true
  · rw [if_pos hk, find_dictReplace_ne d k k2 v hne]
  · rw [if_neg hk, List.find?_append]
    cases hfind : d.find? (fun kv => kv.1 == k) with
    | some p => simp [Option.orElse]
    | none =>
      have : (k2 == k) = false := beq_eq_false_iff_ne.mpr (Ne.symm hne)
      simp [Option.orElse, List.find?, this]

/-! ### Claim C10 -/

/-- C10: `serialize` is total over every integer status code (it is a
total function of this embedding, mirroring that the Python code raises
nowhere on an unknown code): outside the supported set
`{200, 400, 404, 500}` the reason-phrase lookup returns the absent-value
sentinel (`none`, Python `None`), and the emitted status line is
`HTTP/1.1 <code> None\r\n` — the literal text `None` — whatever the
headers and body are. -/
theorem C10_serialize_unknown_status (c : Int)
    (hdrs : List (List Char × HVal)) (b : List Char)
    (hc : c ∉ ([200, 400, 404, 500] : List Int)) :
    STATUS_MESSAGES c = none ∧
    (chars "HTTP/1.1 " ++ chars (toString c) ++ chars " None\r\n") <+:
      serialize ⟨c, hdrs, b⟩ := by
  have h200 : ¬(c = 200) := fun h => hc (by simp [h])
  have h400 : ¬(c = 400) := fun h => hc (by simp [h])
  have h404 : ¬(c = 404) := fun h => hc (by simp [h])
  have h500 : ¬(c = 500) := fun h => hc (by simp [h])
  have hmsg : STATUS_MESSAGES c = none := by
    simp only [STATUS_MESSAGES, if_neg h200, if_neg h400, if_neg h404, if_neg h500]
  refine ⟨hmsg, ?_⟩
  refine ⟨(hdrs.foldl (fun acc kv => acc ++ kv.1 ++ colonSp ++ kv.2.render ++ crlf) [])
    ++ (crlf ++ b), ?_⟩
  show (chars "HTTP/1.1 " ++ chars (toString c) ++ chars " None\r\n") ++ _ =
    serialize ⟨c, hdrs, b⟩
  unfold serialize
  rw [hmsg]
  have hsp : (chars " None\r\n" : List Char) = [' '] ++ chars "None" ++ crlf := rfl
  rw [hsp]
  simp [List.append_assoc]

/-- Witness for C10 at the concrete unknown status code 201 (the
`STATUS_201_CREATED` that `sample.py` uses without a reason phrase). -/
theorem C10_serialize_unknown_status_witness :
    STATUS_MESSAGES 201 = none ∧
    (chars "HTTP/1.1 " ++ chars (toString (201 : Int)) ++ chars " None\r\n") <+:
      serialize ⟨201, [], []⟩ :=
  C10_serialize_unknown_status 201 [] [] (by decide)

/-! ### Claim C9 -/

/-- C9: `add_route` fails exactly on invalid brace nesting or on a
conflict — an already-registered route whose `matches_with` accepts the
new pattern string (and the conflict scan runs first, so a conflict
reports the duplicate-route error); otherwise the route is appended to
the table.  Registering `/a/{x}` and then `/a/{y}` is such a conflict. -/
theorem C9_add_route_spec {α : Type} (routes : List (RouteM α))
    (p : List Char) (h : α) :
    ((∃ e, add_route routes p h = .error e) ↔
      (validate_path p = false ∨
        routes.any (fun r => matches_with r.path p) = true)) ∧
    (add_route routes p h = .error .duplicateRoute ↔
      routes.any (fun r => matches_with r.path p) = true) ∧
    (routes.any (fun r => matches_with r.path p) = false →
      validate_path p = true →
      add_route routes p h = .ok (routes ++ [⟨p, h⟩])) ∧
    add_route [(⟨chars "/a/{x}", h⟩ : RouteM α)] (chars "/a/{y}") h =
      .error .duplicateRoute := by
  have hxy : matches_with (chars "/a/{x}") (chars "/a/{y}") = true := by decide
  have h4 : add_route [(⟨chars "/a/{x}", h⟩ : RouteM α)] (chars "/a/{y}") h =
      .error .duplicateRoute := by
    simp [add_route, hxy]
  refine ⟨?_, ?_, ?_, h4⟩ <;>
  · cases hany : routes.any (fun r => matches_with r.path p) with
    | true => simp [add_route, hany]
    | false =>
      cases hval : validate_path p with
      | true => simp [add_route, hany, hval]
      | false => simp [add_route, hany, hval]

/-- Witness for C9: an unconflicted, balanced pattern is appended. -/
theorem C9_add_route_spec_witness :
    add_route ([] : List (RouteM Nat)) (chars "/a/{x}") 0 =
      .ok [⟨chars "/a/{x}", 0⟩] :=
  (C9_add_route_spec ([] : List (RouteM Nat)) (chars "/a/{x}") 0).2.2.1
    rfl (by decide)

/-! ### Claim C3 -/

/-- C3: resolution returns the handler of the first registered route (in
registration order) whose `matches_with` accepts the path, and when no
registered route matches, `get_handler` yields the fallback (`none`, the
synthesized 404 lambda) and dispatch produces the built 404 response —
uniformly in the routes' handlers, so without invoking any of them (the
`negotiate` transform that `_handle_request` applies afterwards touches
the 404 only when the request carries a usable `Accept-Encoding`). -/
theorem C3_first_match_resolution (gz : List Char → List Char)
    (routes : List (RouteM Handler)) (req : HttpRequestM) :
    ((get_handler routes req.path).map Prod.fst =
      (routes.find? (fun r => matches_with r.path req.path)).map RouteM.handler) ∧
    ((∀ r ∈ routes, matches_with r.path req.path = false) →
      get_handler routes req.path = none ∧
      dispatch gz routes req = negotiate gz req (buildBare 404)) := by
  have hmap : (get_handler routes req.path).map Prod.fst =
      (routes.find? (fun r => matches_with r.path req.path)).map RouteM.handler := by
    induction routes with
    | nil => rfl
    | cons r rest ih =>
      by_cases hm : matches_with r.path req.path = true
      · rw [@List.find?_cons_of_pos _ (fun r => matches_with r.path req.path) r rest hm]
        simp only [get_handler, if_pos hm]
        cases hd : get_dynamic_segments r.path req.path with
        | none => simp
        | some l =>
          cases l with
          | nil => simp
          | cons a as => simp
      · rw [@List.find?_cons_of_neg _ (fun r => matches_with r.path req.path) r rest hm]
        simp only [get_handler, if_neg hm]
        exact ih
  refine ⟨hmap, fun hall => ?_⟩
  have hfind : routes.find? (fun r => matches_with r.path req.path) = none := by
    rw [List.find?_eq_none]
    intro r hr hmr
    rw [hall r hr] at hmr
    exact Bool.false_ne_true hmr
  have hgh : get_handler routes req.path = none := by
    rw [hfind] at hmap
    simpa using hmap
  refine ⟨hgh, ?_⟩
  simp [dispatch, dispatchTry, hgh]


/-- Witness for C3: with only `/x` registered, the path `/y` resolves to
the 404 fallback. -/
theorem C3_first_match_resolution_witness :
    get_handler routesC3 reqC3.path = none ∧
    dispatch id routesC3 reqC3 = negotiate id reqC3 (buildBare 404) :=
  (C3_first_match_resolution id routesC3 reqC3).2 (by decide)

/-! ### Claim C4 -/

/-- Counterexample to C4: the claim says a placeholder never matches an
empty path segment and in particular that `/echo/{val}` does not match
`/echo/`; the code's matcher accepts that very pair, because the dynamic
comparison skips a `{...}` route segment without looking at the path
segment facing it. -/
theorem C4_placeholder_empty_counterexample :
    matches_with (chars "/echo/{val}") (chars "/echo/") = true ∧
    matches_with_dynamic_path (chars "/echo/{val}") (chars "/echo/") = true := by
  decide

/-- Segment lists related pointwise: placeholder route segments match
anything (including the empty segment), other segments must be equal;
`Forall₂` also forces equal segment counts. -/
theorem zipAll_iff_forall2 (ps rs : List (List Char)) :
    (ps.length = rs.length ∧
      (ps.zip rs).all (fun pr => isPh pr.2 || pr.1 == pr.2) = true) ↔
    List.Forall₂ (fun pp rp => isPh rp = true ∨ pp = rp) ps rs := by
  induction ps generalizing rs with
  | nil =>
    cases rs with
    | nil => simp
    | cons r rs2 => simp
  | cons p ps2 ih =>
    cases rs with
    | nil => simp
    | cons r rs2 =>
      simp only [List.zip_cons_cons, List.all_cons, List.length_cons,
        Bool.and_eq_true, Bool.or_eq_true, beq_iff_eq, List.forall₂_cons,
        Nat.add_right_cancel_iff]
      rw [← ih rs2]
      constructor
      · rintro ⟨h1, h2, h3⟩
        exact ⟨h2, h1, h3⟩
      · rintro ⟨h2, h1, h3⟩
        exact ⟨h1, h2, h3⟩

/-- C4 amended: the dynamic matcher compares the `/`-split segment
sequences pointwise with equal counts — a literal route segment must equal
the path segment exactly, while a placeholder `{...}` segment matches
exactly one path segment of any content, **including the empty segment**;
in particular `/echo/{val}` does match `/echo/`. -/
theorem C4_segment_matching_amended (route_path path : List Char) :
    (matches_with_dynamic_path route_path path = true ↔
      List.Forall₂ (fun pp rp => isPh rp = true ∨ pp = rp)
        (splitOnL (chars "/") path) (splitOnL (chars "/") route_path)) ∧
    matches_with_dynamic_path (chars "/echo/{val}") (chars "/echo/") = true := by
  constructor
  · simp only [matches_with_dynamic_path]
    rw [← zipAll_iff_forall2]
    by_cases hlen : (splitOnL (chars "/") path).length =
        (splitOnL (chars "/") route_path).length
    · rw [if_pos hlen]
      simp [hlen]
    · rw [if_neg hlen]
      simp [hlen]
  · decide

/-- Witness for C4's amended statement at a concrete pattern and path. -/
theorem C4_segment_matching_amended_witness :
    List.Forall₂ (fun pp rp => isPh rp = true ∨ pp = rp)
      (splitOnL (chars "/") (chars "/a/b"))
      (splitOnL (chars "/") (chars "/a/{x}")) :=
  (C4_segment_matching_amended (chars "/a/{x}") (chars "/a/b")).1.mp (by decide)

/-! ### Claim C5 -/

/-- A query-free string has no `"?"` occurrence for `splitFirst`. -/
theorem splitFirst_q_none {p : List Char} (h : '?' ∉ p) :
    splitFirst (chars "?") p = none := by
  induction p with
  | nil => rfl
  | cons c rest ih =>
    have hc : ¬('?' = c) := fun he => h (he ▸ List.mem_cons_self c rest)
    have hpre : List.isPrefixOf (chars "?") (c :: rest) = false := by
      show (('?' == c) && List.isPrefixOf ([] : List Char) rest) = false
      rw [beq_eq_false_iff_ne.mpr hc, Bool.false_and]
    rw [splitFirst, if_neg (by simp [hpre]),
      ih (fun hm => h (List.mem_cons_of_mem c hm))]

/-- Splitting a query-free string on `"?"` returns the string itself. -/
theorem splitOnL_q_self {p : List Char} (h : '?' ∉ p) :
    splitOnL (chars "?") p = [p] := by
  unfold splitOnL
  rw [splitOnGo, splitFirst_q_none h]

/-- A trailing slash disappears under `rstrip("/")`. -/
theorem rstripSlash_append_slash (p : List Char) :
    rstripSlash (p ++ ['/']) = rstripSlash p := by
  unfold rstripSlash
  rw [List.reverse_append]
  simp [List.dropWhile]

/-- Every route matches its own (query-free) pattern string. -/
theorem matches_with_self {p : List Char} (h : '?' ∉ p) :
    matches_with p p = true := by
  unfold matches_with
  rw [splitOnL_q_self h]
  simp

/-- Every route matches its own pattern string with a trailing slash. -/
theorem matches_with_self_slash {p : List Char} (h : '?' ∉ p) :
    matches_with p (p ++ ['/']) = true := by
  have h2 : '?' ∉ p ++ ['/'] := by
    intro hm
    rcases List.mem_append.mp hm with hm | hm
    · exact h hm
    · simp at hm
  unfold matches_with
  rw [splitOnL_q_self h2]
  simp [rstripSlash_append_slash]

/-- A successful `add_route` appends the route and certifies that no
existing route matched the new pattern. -/
theorem add_route_ok {α : Type} {routes routes2 : List (RouteM α)}
    {p : List Char} {hd : α} (h : add_route routes p hd = .ok routes2) :
    routes2 = routes ++ [⟨p, hd⟩] ∧
      routes.any (fun r => matches_with r.path p) = false := by
  unfold add_route at h
  by_cases hany : routes.any (fun r => matches_with r.path p) = true
  · rw [if_pos hany] at h
    cases h
  · rw [if_neg hany] at h
    by_cases hval : validate_path p = true
    · rw [if_pos hval] at h
      cases h
      exact ⟨rfl, Bool.eq_false_iff.mpr hany⟩
    · rw [if_neg hval] at h
      cases h

/-- A table built by successive `add_route` calls is pairwise
conflict-free: no earlier route's matcher accepts a later route's
pattern. -/
theorem addAll_pairwise {α : Type} (ps : List (List Char × α)) :
    ∀ (routes0 routes : List (RouteM α)),
    routes0.Pairwise (fun a b => matches_with a.path b.path = false) →
    addAll routes0 ps = .ok routes →
    routes.Pairwise (fun a b => matches_with a.path b.path = false) := by
  induction ps with
  | nil =>
    intro routes0 routes h0 h
    cases h
    exact h0
  | cons ph rest ih =>
    intro routes0 routes h0 h
    obtain ⟨p, hdl⟩ := ph
    rw [addAll] at h
    cases har : add_route routes0 p hdl with
    | error e =>
      rw [har] at h
      cases h
    | ok routes1 =>
      rw [har] at h
      obtain ⟨heq, hany⟩ := add_route_ok har
      subst heq
      refine ih _ routes ?_ h
      rw [List.pairwise_append]
      refine ⟨h0, List.pairwise_singleton _ _, ?_⟩
      intro a ha b hb
      rw [List.mem_singleton] at hb
      subst hb
      exact Bool.eq_false_iff.mpr (List.any_eq_false.mp hany a ha)

/-- In a pairwise conflict-free table, scanning resolves each route's own
pattern to that route's handler. -/
theorem get_handler_pairwise_self {α : Type} (routes : List (RouteM α))
    (hpw : routes.Pairwise (fun a b => matches_with a.path b.path = false))
    (i : Nat) (hi : i < routes.length)
    (hq : '?' ∉ (routes.get ⟨i, hi⟩).path) :
    (get_handler routes (routes.get ⟨i, hi⟩).path).map Prod.fst =
      some (routes.get ⟨i, hi⟩).handler := by
  induction routes generalizing i with
  | nil => exact absurd hi (Nat.not_lt_zero i)
  | cons r rest ih =>
    rcases List.pairwise_cons.mp hpw with ⟨hr, hrest⟩
    cases i with
    | zero =>
      have hq2 : '?' ∉ r.path := hq
      have hm : matches_with r.path r.path = true := matches_with_self hq2
      show Option.map Prod.fst (get_handler (r :: rest) r.path) = some r.handler
      rw [get_handler, if_pos hm]
      cases hd : get_dynamic_segments r.path r.path with
      | none => simp
      | some l =>
        cases l with
        | nil => simp
        | cons a as => simp
    | succ j =>
      have hj : j < rest.length := Nat.lt_of_succ_lt_succ hi
      have hq2 : '?' ∉ (rest.get ⟨j, hj⟩).path := hq
      have hfalse : matches_with r.path (rest.get ⟨j, hj⟩).path = false :=
        hr _ (List.get_mem rest j hj)
      show Option.map Prod.fst
          (get_handler (r :: rest) (rest.get ⟨j, hj⟩).path) =
        some (rest.get ⟨j, hj⟩).handler
      rw [get_handler, if_neg (Bool.eq_false_iff.mp hfalse)]
      exact ih hrest j hj hq2

/-- Counterexample to C5: `/a` registers legally after `/a/{x}` (the
conflict check does not fire), `resolve "/a"` returns the route for `/a`,
but `resolve "/a/"` returns the earlier dynamic route `/a/{x}` — its
trailing placeholder matches the empty segment — so a path differing only
by a trailing slash does **not** resolve to the same route. -/
theorem C5_trailing_slash_counterexample :
    addAll ([] : List (RouteM Nat)) [(chars "/a/{x}", 0), (chars "/a", 1)] =
      .ok [⟨chars "/a/{x}", 0⟩, ⟨chars "/a", 1⟩] ∧
    (get_handler [(⟨chars "/a/{x}", 0⟩ : RouteM Nat), ⟨chars "/a", 1⟩]
        (chars "/a")).map Prod.fst = some 1 ∧
    (get_handler [(⟨chars "/a/{x}", 0⟩ : RouteM Nat), ⟨chars "/a", 1⟩]
        (chars "/a/")).map Prod.fst = some 0 :=
  ⟨rfl, by decide, by decide⟩

/-- C5 amended: the *string-comparison* arm of matching treats a trailing
slash as insignificant — every route matches both its own (query-free)
pattern `p` and `p ++ "/"` — and in a table built by `add_route`,
resolving the pattern `p` itself returns that route's handler (the
registration-time conflict check guarantees no earlier route shadows
`p`).  Resolving `p ++ "/"`, however, returns the first route matching
that slashed path, which can be an earlier dynamic route (see the
counterexample), so trailing-slash insensitivity does not extend to
`resolve`. -/
theorem C5_trailing_slash_amended :
    (∀ p : List Char, '?' ∉ p →
      matches_with p p = true ∧ matches_with p (p ++ ['/']) = true) ∧
    (∀ (α : Type) (ps : List (List Char × α)) (routes : List (RouteM α)),
      addAll [] ps = .ok routes →
      ∀ i (hi : i < routes.length), '?' ∉ (routes.get ⟨i, hi⟩).path →
        (get_handler routes (routes.get ⟨i, hi⟩).path).map Prod.fst =
          some (routes.get ⟨i, hi⟩).handler) :=
  ⟨fun _ h => ⟨matches_with_self h, matches_with_self_slash h⟩,
   fun _ ps routes hok i hi hq =>
     get_handler_pairwise_self routes
       (addAll_pairwise ps [] routes List.Pairwise.nil hok) i hi hq⟩

/-- Witness for C5's amended statement: `/test` matches `/test/`, and in
the one-route table built from `/test` the pattern resolves to its own
handler. -/
theorem C5_trailing_slash_amended_witness :
    matches_with (chars "/test") (chars "/test" ++ ['/']) = true ∧
    (get_handler [(⟨chars "/test", 7⟩ : RouteM Nat)]
        (([(⟨chars "/test", 7⟩ : RouteM Nat)].get ⟨0, by decide⟩).path)).map
        Prod.fst =
      some (([(⟨chars "/test", 7⟩ : RouteM Nat)].get ⟨0, by decide⟩).handler) :=
  ⟨(C5_trailing_slash_amended.1 (chars "/test") (by decide)).2,
   C5_trailing_slash_amended.2 Nat [(chars "/test", 7)]
     [⟨chars "/test", 7⟩] rfl 0 (by decide) (by decide)⟩

/-! ### Claim C1 -/

/-- Splitting the empty string never finds a separator occurrence. -/
theorem splitOnGo_nil (sep : List Char) (n : Nat) : splitOnGo sep n [] = [[]] := by
  cases n with
  | zero => rfl
  | succ m => rfl

/-- Counterexample to C1: the terminator arrives split across two chunks —
the first chunk ends with `\r\n`, the second begins with `\r\n` (the
claim's own example shape) and carries the one body byte `Z`.  The decoder
does find the terminator, but the byte after it stays in the header block
(where header parsing ignores it) instead of seeding the body buffer, so
the parsed request differs from single-chunk delivery: the body is empty
instead of `Z`. -/
theorem C1_split_terminator_counterexample :
    read_request [chars "POST /u HTTP/1.1\r\nContent-Length: 1\r\n" ++ chars "\r\nZ"] ≠
      read_request [chars "POST /u HTTP/1.1\r\nContent-Length: 1\r\n", chars "\r\nZ"] ∧
    read_request [chars "POST /u HTTP/1.1\r\nContent-Length: 1\r\n" ++ chars "\r\nZ"] =
      .ok ⟨chars "POST", chars "/u", [(chars "Content-Length", chars "1")], chars "Z"⟩ ∧
    read_request [chars "POST /u HTTP/1.1\r\nContent-Length: 1\r\n", chars "\r\nZ"] =
      .ok ⟨chars "POST", chars "/u", [(chars "Content-Length", chars "1")], []⟩ :=
  ⟨by decide, by decide, by decide⟩

/-- C1 amended: when the terminator arrives split across two read chunks
and **no bytes follow it** in the completing chunk (the two chunks
concatenate to header block plus terminator, whose first terminator
occurrence ends the stream), the decoder produces exactly the same parsed
request as single-chunk delivery.  When bytes do follow the split
terminator, they remain in the header block and do not seed the body (see
the counterexample). -/
theorem C1_split_terminator_amended (c1 c2 h : List Char)
    (h1 : c1 ≠ []) (h2 : c2 ≠ [])
    (hnc1 : hasSub crlf2 c1 = false) (hnc2 : hasSub crlf2 c2 = false)
    (hterm : splitFirst crlf2 (c1 ++ c2) = some (h, [])) :
    read_request [c1 ++ c2] = read_request [c1, c2] := by
  have happ : c1 ++ c2 = h ++ crlf2 := by
    have := splitFirst_eq_append hterm
    rwa [List.append_nil] at this
  have hsub : hasSub crlf2 (c1 ++ c2) = true := by
    rw [hasSub, hterm]
    rfl
  have hsplit : splitOnL crlf2 (c1 ++ c2) = [h, []] := by
    unfold splitOnL
    rw [splitOnGo, hterm]
    show h :: splitOnGo crlf2 ((c1 ++ c2).length) [] = [h, []]
    rw [splitOnGo_nil]
  have hne : c1 ++ c2 ≠ [] := fun he => h1 (List.append_eq_nil.mp he).1
  have hrh1 : readHeaders [c1 ++ c2] [] = (h ++ crlf2, [], []) := by
    rw [readHeaders, if_neg (by decide), if_neg hne, if_pos hsub, hsplit]
    show (([] : List Char) ++ h ++ crlf2, [], ([] : List (List Char))) = _
    rw [List.nil_append]
  have hrh2 : readHeaders [c1, c2] [] = (h ++ crlf2, [], []) := by
    rw [readHeaders, if_neg (by decide), if_neg h1,
      if_neg (Bool.eq_false_iff.mp hnc1), List.nil_append]
    rw [readHeaders, if_neg (Bool.eq_false_iff.mp hnc1), if_neg h2,
      if_neg (Bool.eq_false_iff.mp hnc2)]
    rw [readHeaders, happ]
  unfold read_request
  rw [hrh1, hrh2]

/-- Witness for C1's amended statement: terminator split as
`...\r\n` + `\r\n` with nothing after it parses identically to the
single-chunk stream. -/
theorem C1_split_terminator_amended_witness :
    read_request [chars "GET / HTTP/1.1\r\nHost: x\r\n" ++ chars "\r\n"] =
      read_request [chars "GET / HTTP/1.1\r\nHost: x\r\n", chars "\r\n"] :=
  C1_split_terminator_amended (chars "GET / HTTP/1.1\r\nHost: x\r\n")
    (chars "\r\n") (chars "GET / HTTP/1.1\r\nHost: x") (by decide) (by decide)
    (by decide) (by decide) (by decide)

/-! ### Claim C2 -/

/-- The body loop accumulates whole received chunks, one at a time, until
the buffer's length first reaches the declared content length, or the
source is exhausted — early end-of-stream yields the short body made of
everything received.  `k` is the number of chunks consumed. -/
theorem readBody_spec (content_length : Int) (chunks : List (List Char)) :
    ∀ body_buff : List Char, (∀ c ∈ chunks, c ≠ []) →
    ∃ k, k ≤ chunks.length ∧
      readBody chunks body_buff content_length =
        body_buff ++ (chunks.take k).flatten ∧
      (content_length ≤ ((body_buff ++ (chunks.take k).flatten).length : Int) ∨
        k = chunks.length) ∧
      ∀ j, j < k →
        ((body_buff ++ (chunks.take j).flatten).length : Int) < content_length := by
  induction chunks with
  | nil =>
    intro body_buff hne
    have hrb : readBody [] body_buff content_length = body_buff := by
      unfold readBody
      split
      · rfl
      · rfl
    exact ⟨0, Nat.le_refl 0, by simpa using hrb, Or.inr rfl,
      fun j hj => absurd hj (Nat.not_lt_zero j)⟩
  | cons c rest ih =>
    intro body_buff hne
    by_cases hlt : (body_buff.length : Int) < content_length
    · have hc : c ≠ [] := hne c (List.mem_cons_self c rest)
      have hrb : readBody (c :: rest) body_buff content_length =
          readBody rest (body_buff ++ c) content_length := by
        rw [readBody, if_pos hlt]
        show (if c = [] then body_buff
          else readBody rest (body_buff ++ c) content_length) = _
        rw [if_neg hc]
      obtain ⟨k, hk, heq, hstop, hmin⟩ :=
        ih (body_buff ++ c) (fun x hx => hne x (List.mem_cons_of_mem c hx))
      have hassoc : ∀ m : Nat, body_buff ++ ((c :: rest).take (m + 1)).flatten =
          (body_buff ++ c) ++ (rest.take m).flatten := by
        intro m
        rw [List.take_succ_cons, List.flatten_cons, List.append_assoc]
      refine ⟨k + 1, Nat.succ_le_succ hk, ?_, ?_, ?_⟩
      · rw [hrb, heq, hassoc k]
      · rcases hstop with h | h
        · left
          rw [hassoc k]
          exact h
        · right
          rw [h]
          rfl
      · intro j hj
        cases j with
        | zero => simpa using hlt
        | succ j2 =>
          rw [hassoc j2]
          exact hmin j2 (Nat.lt_of_succ_lt_succ hj)
    · have hrb : readBody (c :: rest) body_buff content_length = body_buff := by
        unfold readBody
        rw [if_neg hlt]
      refine ⟨0, Nat.zero_le _, by simpa using hrb, Or.inl ?_,
        fun j hj => absurd hj (Nat.not_lt_zero j)⟩
      simpa using Int.not_lt.mp hlt

/-- In the parsing stage, a request that does not take the body-reading
branch (not `POST`, or no truthy `Content-Length`) keeps exactly the
seeded body bytes. -/
theorem read_request_core_body_seed (hbuf seed : List Char)
    (rest : List (List Char)) (req : HttpRequestM)
    (hok : read_request_core hbuf seed rest = .ok req)
    (hcond : ¬(req.method = chars "POST" ∧ ∃ cl,
      dictGet req.headers (chars "Content-Length") = some cl ∧ cl ≠ [])) :
    req.body = seed := by
  unfold read_request_core at hok
  split at hok
  · cases hok
  · split at hok
    · split at hok
      · split at hok
        · split at hok
          · split at hok
            · cases hok
              rename_i cle hceq hifc optn nn hneq
              exact absurd ⟨hifc.1, cle, hceq, hifc.2⟩ hcond
            · cases hok
          · cases hok
            rfl
        · cases hok
          rfl
      · cases hok
    · cases hok

/-- In the parsing stage, a `POST` request with a truthy, parseable
`Content-Length` gets the body the reading loop produces from the seed
and the unconsumed chunks. -/
theorem read_request_core_body_post (hbuf seed : List Char)
    (rest : List (List Char)) (req : HttpRequestM) (cl : List Char) (n : Int)
    (hok : read_request_core hbuf seed rest = .ok req)
    (hpost : req.method = chars "POST")
    (hcl : dictGet req.headers (chars "Content-Length") = some cl)
    (hclne : cl ≠ []) (hn : pyInt cl = some n) :
    req.body = readBody rest seed n := by
  unfold read_request_core at hok
  split at hok
  · cases hok
  · split at hok
    · split at hok
      · split at hok
        · split at hok
          · split at hok
            · cases hok
              rename_i cle hceq hifc optn nn hneq
              have h3 : (some cle : Option (List Char)) = some cl := by
                rw [← hceq]
                exact hcl
              cases h3
              have h4 : (some nn : Option Int) = some n := by
                rw [← hneq]
                exact hn
              cases h4
              rfl
            · cases hok
          · cases hok
            rename_i cle hceq hifc
            have h3 : (some cle : Option (List Char)) = some cl := by
              rw [← hceq]
              exact hcl
            cases h3
            exact absurd ⟨hpost, hclne⟩ hifc
        · cases hok
          rename_i hceq
          have h3 : (none : Option (List Char)) = some cl := by
            rw [← hceq]
            exact hcl
          cases h3
      · cases hok
    · cases hok

/-- Counterexample to C2: a `GET` request (no body-bearing method/header
combination) whose terminator-carrying chunk has a byte after the
terminator yields a request whose body is that byte, not the empty body
the claim promises — the split seeds the body buffer unconditionally and
`HttpRequest` is built with whatever it holds. -/
theorem C2_body_framing_counterexample :
    read_request [chars "GET / HTTP/1.1\r\n\r\nX"] =
      .ok ⟨chars "GET", chars "/", [], chars "X"⟩ ∧
    (chars "X" : List Char) ≠ [] :=
  ⟨by decide, by decide⟩

/-- C2 amended: (1) the body loop accumulates received chunks until the
buffer's length reaches the declared content length or end-of-stream,
early end-of-stream yielding a short body (the `∃ k` characterization);
(2) a parsed request outside the `POST`-with-truthy-`Content-Length`
combination keeps exactly the bytes that seeded the body buffer when the
terminator was found — the empty body only when no bytes followed the
terminator in that chunk, not for every such request; (3) the parsed
`POST` body is the loop's result from that seed; and (4) the concrete
`POST /upload` scenario split as `...\r\n\r\nhe` + `llo` still yields the
full body `hello`. -/
theorem C2_body_framing_amended :
    (∀ (content_length : Int) (chunks : List (List Char))
        (body_buff : List Char), (∀ c ∈ chunks, c ≠ []) →
      ∃ k, k ≤ chunks.length ∧
        readBody chunks body_buff content_length =
          body_buff ++ (chunks.take k).flatten ∧
        (content_length ≤ ((body_buff ++ (chunks.take k).flatten).length : Int) ∨
          k = chunks.length) ∧
        ∀ j, j < k →
          ((body_buff ++ (chunks.take j).flatten).length : Int) < content_length) ∧
    (∀ (chunks : List (List Char)) (req : HttpRequestM),
      read_request chunks = .ok req →
      ¬(req.method = chars "POST" ∧ ∃ cl,
        dictGet req.headers (chars "Content-Length") = some cl ∧ cl ≠ []) →
      req.body = (readHeaders chunks []).2.1) ∧
    (∀ (chunks : List (List Char)) (req : HttpRequestM) (cl : List Char)
        (n : Int),
      read_request chunks = .ok req →
      req.method = chars "POST" →
      dictGet req.headers (chars "Content-Length") = some cl → cl ≠ [] →
      pyInt cl = some n →
      req.body = readBody (readHeaders chunks []).2.2
        (readHeaders chunks []).2.1 n) ∧
    read_request
        [chars "POST /upload HTTP/1.1\r\nContent-Length: 5\r\n\r\nhe",
          chars "llo"] =
      .ok ⟨chars "POST", chars "/upload",
        [(chars "Content-Length", chars "5")], chars "hello"⟩ := by
  refine ⟨fun cl chunks bb hne => readBody_spec cl chunks bb hne, ?_, ?_, by decide⟩
  · intro chunks req hok hcond
    exact read_request_core_body_seed _ _ _ _ hok hcond
  · intro chunks req cl n hok hpost hcl hclne hn
    exact read_request_core_body_post _ _ _ _ _ _ hok hpost hcl hclne hn

/-- Witness for C2's amended statement: the `hello` scenario instantiates
the `POST` branch (conjunct 3), and the seed branch (conjunct 2) applies
to a plain `GET`. -/
theorem C2_body_framing_amended_witness :
    (⟨chars "POST", chars "/upload", [(chars "Content-Length", chars "5")],
        chars "hello"⟩ : HttpRequestM).body =
      readBody
        (readHeaders
          [chars "POST /upload HTTP/1.1\r\nContent-Length: 5\r\n\r\nhe",
            chars "llo"] []).2.2
        (readHeaders
          [chars "POST /upload HTTP/1.1\r\nContent-Length: 5\r\n\r\nhe",
            chars "llo"] []).2.1 5 ∧
    (⟨chars "GET", chars "/", [], chars "X"⟩ : HttpRequestM).body =
      (readHeaders [chars "GET / HTTP/1.1\r\n\r\nX"] []).2.1 :=
  ⟨C2_body_framing_amended.2.2.1
      [chars "POST /upload HTTP/1.1\r\nContent-Length: 5\r\n\r\nhe",
        chars "llo"]
      ⟨chars "POST", chars "/upload", [(chars "Content-Length", chars "5")],
        chars "hello"⟩ (chars "5") 5 (by decide) rfl (by decide) (by decide)
      (by decide),
   C2_body_framing_amended.2.1 [chars "GET / HTTP/1.1\r\n\r\nX"]
      ⟨chars "GET", chars "/", [], chars "X"⟩ (by decide)
      (by intro hc; exact absurd hc.2 (by decide))⟩

/-! ### Claim C6 -/

/-- Counterexample to C6: `/echo/{val}` matches `/echo/he llo` (the
placeholder skips the whole segment), but the extraction regex's group
`([\w.-]+)` stops at the space, binding `val` to the proper prefix `he`
rather than the full segment value the claim promises. -/
theorem C6_extract_counterexample :
    matches_with (chars "/echo/{val}") (chars "/echo/he llo") = true ∧
    get_dynamic_segments (chars "/echo/{val}") (chars "/echo/he llo") =
      some [(chars "val", chars "he")] ∧
    (chars "he" : List Char) ≠ chars "he llo" :=
  ⟨by decide, by decide, by decide⟩

/-- A list all of whose characters satisfy `p` is its own `takeWhile`. -/
theorem takeWhile_of_all {p : Char → Bool} {l : List Char}
    (h : l.all p = true) : l.takeWhile p = l := by
  induction l with
  | nil => rfl
  | cons c rest ih =>
    rw [List.all_cons, Bool.and_eq_true] at h
    rw [List.takeWhile_cons_of_pos h.1, ih h.2]

/-- `takeWhile` over `l ++ c :: t` stops exactly at `c` when all of `l`
satisfies `p` and `c` does not. -/
theorem takeWhile_append_stop {p : Char → Bool} {l : List Char}
    (hl : l.all p = true) {c : Char} (hc : p c = false) (t : List Char) :
    (l ++ c :: t).takeWhile p = l := by
  induction l with
  | nil =>
    rw [List.nil_append, List.takeWhile_cons_of_neg (by simp [hc])]
  | cons a l2 ih =>
    rw [List.all_cons, Bool.and_eq_true] at hl
    rw [List.cons_append, List.takeWhile_cons_of_pos hl.1, ih hl.2]

/-- A literal token consumes its own character. -/
theorem rmatch_lit_self (c : Char) (ts : List PTok) (xs : List Char) :
    rmatch (.lit c :: ts) (c :: xs) = rmatch ts xs := by
  rw [rmatch, if_pos rfl]

/-- A final capturing group facing a non-empty all-`[\w.-]` input consumes
all of it greedily and the match succeeds. -/
theorem rmatch_ph_last (nm : List Char) (a : Char) (t : List Char)
    (hall : (a :: t).all isWordDotDash = true) :
    rmatch [.ph nm] (a :: t) = some [a :: t] := by
  have hdrop : (a :: t).drop (t.length + 1) = [] := by
    rw [List.drop_succ_cons, List.drop_length]
  have htake : (a :: t).take (t.length + 1) = a :: t := by
    rw [List.take_succ_cons, List.take_length]
  rw [rmatch, takeWhile_of_all hall]
  simp only [List.length_cons]
  rw [tryLens, hdrop, htake]
  rfl

/-- A capturing group facing a non-empty all-`[\w.-]` run that is
delimited by a non-`[\w.-]` character consumes exactly the run, and the
remaining tokens continue on the delimiter. -/
theorem rmatch_ph_mid (nm : List Char) (ts : List PTok) (a : Char)
    (t1 : List Char) (hall : (a :: t1).all isWordDotDash = true) (c : Char)
    (hc : isWordDotDash c = false) (rest2 : List Char)
    (vs : List (List Char)) (hcont : rmatch ts (c :: rest2) = some vs) :
    rmatch (.ph nm :: ts) ((a :: t1) ++ c :: rest2) = some ((a :: t1) :: vs) := by
  have hdrop : ((a :: t1) ++ c :: rest2).drop (t1.length + 1) = c :: rest2 := by
    rw [show t1.length + 1 = (a :: t1).length from rfl]
    exact List.drop_left _ _
  have htake : ((a :: t1) ++ c :: rest2).take (t1.length + 1) = a :: t1 := by
    rw [show t1.length + 1 = (a :: t1).length from rfl]
    exact List.take_left _ _
  rw [rmatch, takeWhile_append_stop hall hc]
  simp only [List.length_cons]
  rw [tryLens, hdrop, hcont, htake]

/-- A token list without capturing groups captures nothing. -/
theorem rmatch_no_ph {toks : List PTok}
    (hnp : ∀ t ∈ toks, ∀ nm, t ≠ .ph nm) :
    ∀ {xs : List Char} {vs : List (List Char)},
      rmatch toks xs = some vs → vs = [] := by
  induction toks with
  | nil =>
    intro xs vs h
    rw [rmatch] at h
    cases h
    rfl
  | cons t ts ih =>
    have hnp2 : ∀ t2 ∈ ts, ∀ nm, t2 ≠ PTok.ph nm :=
      fun t2 ht2 nm => hnp t2 (List.mem_cons_of_mem t ht2) nm
    intro xs vs h
    cases t with
    | lit c =>
      cases xs with
      | nil =>
        rw [rmatch] at h
        cases h
      | cons x xs2 =>
        rw [rmatch] at h
        by_cases hx : x = c
        · rw [if_pos hx] at h
          exact ih hnp2 h
        · rw [if_neg hx] at h
          cases h
    | anyc =>
      cases xs with
      | nil =>
        rw [rmatch] at h
        cases h
      | cons x xs2 =>
        rw [rmatch] at h
        exact ih hnp2 h
    | ph nm => exact absurd rfl (hnp _ (List.mem_cons_self _ _) nm)

/-- A token list without capturing groups yields no placeholder names. -/
theorem phNames_no_ph {toks : List PTok}
    (hnp : ∀ t ∈ toks, ∀ nm, t ≠ .ph nm) : phNames toks = [] := by
  induction toks with
  | nil => rfl
  | cons t ts ih =>
    have hnp2 : ∀ t2 ∈ ts, ∀ nm, t2 ≠ PTok.ph nm :=
      fun t2 ht2 nm => hnp t2 (List.mem_cons_of_mem t ht2) nm
    cases t with
    | lit c => simpa [phNames, List.filterMap_cons] using ih hnp2
    | anyc => simpa [phNames, List.filterMap_cons] using ih hnp2
    | ph nm => exact absurd rfl (hnp _ (List.mem_cons_self _ _) nm)

/-- Parameter extraction for `/echo/{val}` binds `val` to the full
segment whenever the segment is a non-empty `[\w.-]` run. -/
theorem gds_echo_val (s : List Char) (hne : s ≠ [])
    (hall : s.all isWordDotDash = true) :
    get_dynamic_segments (chars "/echo/{val}") (chars "/echo/" ++ s) =
      some [(chars "val", s)] := by
  cases s with
  | nil => exact absurd rfl hne
  | cons a t =>
    have hrm : rmatch (compileToks (chars "/echo/{val}"))
        (chars "/echo/" ++ (a :: t)) = some [a :: t] := by
      show rmatch [.lit '/', .lit 'e', .lit 'c', .lit 'h', .lit 'o', .lit '/',
          .ph (chars "val")]
        ('/' :: 'e' :: 'c' :: 'h' :: 'o' :: '/' :: (a :: t)) = some [a :: t]
      simp only [rmatch_lit_self]
      exact rmatch_ph_last (chars "val") a t hall
    unfold get_dynamic_segments
    rw [hrm]
    rfl

/-- Parameter extraction for `/echo/{}/{}` binds the positional names
`seg0`, `seg1` to the two full segments whenever both are non-empty
`[\w.-]` runs. -/
theorem gds_echo_two (s1 s2 : List Char) (h1 : s1 ≠ []) (h2 : s2 ≠ [])
    (ha1 : s1.all isWordDotDash = true) (ha2 : s2.all isWordDotDash = true) :
    get_dynamic_segments (chars "/echo/{}/{}")
        (chars "/echo/" ++ s1 ++ ['/'] ++ s2) =
      some [(chars "seg0", s1), (chars "seg1", s2)] := by
  cases s1 with
  | nil => exact absurd rfl h1
  | cons a t1 =>
    cases s2 with
    | nil => exact absurd rfl h2
    | cons b t2 =>
      have hpath : chars "/echo/" ++ (a :: t1) ++ ['/'] ++ (b :: t2) =
          '/' :: 'e' :: 'c' :: 'h' :: 'o' :: '/' ::
            ((a :: t1) ++ '/' :: (b :: t2)) := by
        rw [List.append_assoc, List.append_assoc]
        exact rfl
      have hcont : rmatch [.lit '/', .ph []] ('/' :: (b :: t2)) =
          some [b :: t2] := by
        rw [rmatch_lit_self]
        exact rmatch_ph_last [] b t2 ha2
      have hrm : rmatch (compileToks (chars "/echo/{}/{}"))
          (chars "/echo/" ++ (a :: t1) ++ ['/'] ++ (b :: t2)) =
          some [a :: t1, b :: t2] := by
        rw [hpath]
        show rmatch [.lit '/', .lit 'e', .lit 'c', .lit 'h', .lit 'o', .lit '/',
            .ph [], .lit '/', .ph []]
          ('/' :: 'e' :: 'c' :: 'h' :: 'o' :: '/' ::
            ((a :: t1) ++ '/' :: (b :: t2))) = some [a :: t1, b :: t2]
        simp only [rmatch_lit_self]
        exact rmatch_ph_mid [] [.lit '/', .ph []] a t1 ha1 '/' (by decide)
          (b :: t2) [b :: t2] hcont
      unfold get_dynamic_segments
      rw [hrm]
      rfl

/-- C6 amended: when extraction succeeds it binds each placeholder's name
(or positional `seg{i}`) to the **captured group**, which is the full
corresponding path segment only when that segment is a non-empty run of
word/dot/dash characters — for other matched paths the group stops at the
first character outside `[\w.-]` (see the counterexample) or the regex
fails and no parameters are produced; a pattern with no placeholders
yields no parameters (`None` or the empty, falsy dict). -/
theorem C6_extract_amended :
    (∀ s : List Char, s ≠ [] → s.all isWordDotDash = true →
      get_dynamic_segments (chars "/echo/{val}") (chars "/echo/" ++ s) =
        some [(chars "val", s)]) ∧
    (∀ s1 s2 : List Char, s1 ≠ [] → s2 ≠ [] →
      s1.all isWordDotDash = true → s2.all isWordDotDash = true →
      get_dynamic_segments (chars "/echo/{}/{}")
          (chars "/echo/" ++ s1 ++ ['/'] ++ s2) =
        some [(chars "seg0", s1), (chars "seg1", s2)]) ∧
    (∀ route_path path : List Char,
      (∀ t ∈ compileToks route_path, isPhTok t = false) →
      get_dynamic_segments route_path path = none ∨
        get_dynamic_segments route_path path = some []) := by
  refine ⟨gds_echo_val, gds_echo_two, ?_⟩
  intro route_path path hnpb
  have hnp : ∀ t ∈ compileToks route_path, ∀ nm, t ≠ PTok.ph nm := by
    intro t ht nm he
    subst he
    exact absurd (hnpb _ ht) (by simp [isPhTok])
  cases hm : rmatch (compileToks route_path) path with
  | none =>
    left
    unfold get_dynamic_segments
    rw [hm]
  | some vs =>
    right
    have hvs : vs = [] := rmatch_no_ph hnp hm
    subst hvs
    unfold get_dynamic_segments
    rw [hm, phNames_no_ph hnp]
    rfl

/-- Witness for C6's amended statement: `/echo/{val}` against
`/echo/hello` yields `{val: hello}`, and the placeholder-free `/test`
yields no parameters. -/
theorem C6_extract_amended_witness :
    get_dynamic_segments (chars "/echo/{val}") (chars "/echo/" ++ chars "hello") =
      some [(chars "val", chars "hello")] ∧
    (get_dynamic_segments (chars "/test") (chars "/test") = none ∨
      get_dynamic_segments (chars "/test") (chars "/test") = some []) :=
  ⟨C6_extract_amended.1 (chars "hello") (by decide) (by decide),
   C6_extract_amended.2.2 (chars "/test") (chars "/test") (by decide)⟩

/-! ### Claim C7 -/

/-- With `gzip` the only preferred encoding, negotiation returns `gzip`
exactly when the split-and-stripped `Accept-Encoding` list contains it. -/
theorem get_pref_iff (ae : List Char) :
    get_preferred_encoding ae =
      (if ((splitOnL (chars ",") ae).map stripWs).any
          (fun a => a == chars "gzip") then some (chars "gzip") else none) := by
  by_cases h : ((splitOnL (chars ",") ae).map stripWs).any
      (fun a => a == chars "gzip") = true
  · rw [if_pos h]
    simp only [get_preferred_encoding, PREFERRED_ENCODINGS]
    exact @List.find?_cons_of_pos _
      (fun enc => ((splitOnL (chars ",") ae).map stripWs).any (fun a => a == enc))
      (chars "gzip") [] h
  · rw [if_neg h]
    simp only [get_preferred_encoding, PREFERRED_ENCODINGS]
    rw [@List.find?_cons_of_neg _
      (fun enc => ((splitOnL (chars ",") ae).map stripWs).any (fun a => a == enc))
      (chars "gzip") [] h]
    rfl

/-- C7: for a handler response with no `Content-Encoding` of its own,
a request whose `Accept-Encoding` list contains `gzip` gets the response
re-written: body replaced by the compressed body (which decompresses back
to the original), `Content-Encoding: gzip`, and `Content-Length` set to
the compressed body's length; while a request whose list does not contain
`gzip` (e.g. only `br`) leaves the response completely unmodified, still
with no `Content-Encoding` header. -/
theorem C7_gzip_negotiation (gz gun : List Char → List Char)
    (hround : ∀ b, gun (gz b) = b)
    (routes : List (RouteM Handler)) (req : HttpRequestM) (h : Handler)
    (segs : List (List Char × List Char)) (resp : HttpResponseM)
    (ae : List Char)
    (hget : get_handler routes req.path = some (h, segs))
    (hok : h req segs = .ok resp)
    (hae : dictGet req.headers (chars "Accept-Encoding") = some ae)
    (hnoCE : resp.headers.any
      (fun kv => kv.1 == chars "Content-Encoding") = false) :
    (((splitOnL (chars ",") ae).map stripWs).any
        (fun a => a == chars "gzip") = true →
      dispatch gz routes req =
        { status_code := resp.status_code
          headers := dictSet (dictSet resp.headers (chars "Content-Encoding")
              (HVal.s (chars "gzip"))) (chars "Content-Length")
              (HVal.n ((gz resp.body).length : Int))
          body := gz resp.body } ∧
      gun (dispatch gz routes req).body = resp.body ∧
      dictGet (dispatch gz routes req).headers (chars "Content-Length") =
        some (HVal.n ((gz resp.body).length : Int)) ∧
      dictGet (dispatch gz routes req).headers (chars "Content-Encoding") =
        some (HVal.s (chars "gzip"))) ∧
    (((splitOnL (chars ",") ae).map stripWs).any
        (fun a => a == chars "gzip") = false →
      dispatch gz routes req = resp ∧
      dictGet (dispatch gz routes req).headers (chars "Content-Encoding") =
        none) := by
  have hdisp : dispatch gz routes req = negotiate gz req resp := by
    unfold dispatch dispatchTry
    rw [hget]
    show (match (match h req segs with
        | Except.ok response => Except.ok (negotiate gz req response)
        | Except.error e => Except.error e) with
      | Except.ok response => response
      | Except.error _ => buildBare 500) = negotiate gz req resp
    rw [hok]
  have hnone : dictGet resp.headers (chars "Content-Encoding") = none := by
    unfold dictGet
    rw [List.any_eq_false] at hnoCE
    rw [List.find?_eq_none.mpr (fun kv hkv => hnoCE kv hkv)]
    rfl
  constructor
  · intro hgz
    have haene : ae ≠ [] := by
      intro he
      subst he
      exact absurd hgz (by decide)
    have hpref : get_preferred_encoding ae = some (chars "gzip") := by
      rw [get_pref_iff, if_pos hgz]
    have hcomp : dispatch gz routes req = compress gz (chars "gzip") resp := by
      rw [hdisp]
      unfold negotiate
      rw [hae]
      show (if ae = [] then resp
        else match get_preferred_encoding ae with
          | some enc => compress gz enc resp
          | none => resp) = _
      rw [if_neg haene, hpref]
    have hc2 : compress gz (chars "gzip") resp =
        { status_code := resp.status_code
          headers := dictSet (dictSet resp.headers (chars "Content-Encoding")
              (HVal.s (chars "gzip"))) (chars "Content-Length")
              (HVal.n ((gz resp.body).length : Int))
          body := gz resp.body } := by
      unfold compress
      rw [if_neg (by rw [hnoCE]; exact Bool.false_ne_true),
        if_neg (by decide)]
    rw [hcomp, hc2]
    refine ⟨rfl, hround resp.body, ?_, ?_⟩
    · exact dictGet_dictSet_self _ _ _
    · rw [dictGet_dictSet_ne _ _ _ _ (by decide)]
      exact dictGet_dictSet_self _ _ _
  · intro hgz
    have hpref : get_preferred_encoding ae = none := by
      rw [get_pref_iff, if_neg (by rw [hgz]; exact Bool.false_ne_true)]
    have hres : dispatch gz routes req = resp := by
      rw [hdisp]
      unfold negotiate
      rw [hae]
      show (if ae = [] then resp
        else match get_preferred_encoding ae with
          | some enc => compress gz enc resp
          | none => resp) = _
      by_cases hae0 : ae = []
      · rw [if_pos hae0]
      · rw [if_neg hae0, hpref]
    rw [hres]
    exact ⟨rfl, hnone⟩


/-- Witness for C7 with `gzip.compress` instantiated (as the identity
function, whose inverse is the identity). -/
theorem C7_gzip_negotiation_witness :
    dispatch id routesC7 reqC7 =
      { status_code := respC7.status_code
        headers := dictSet (dictSet respC7.headers (chars "Content-Encoding")
            (HVal.s (chars "gzip"))) (chars "Content-Length")
            (HVal.n ((id respC7.body).length : Int))
        body := id respC7.body } ∧
    dispatch id routesC7 reqC7br = respC7 :=
  ⟨((C7_gzip_negotiation id id (fun _ => rfl) routesC7 reqC7 handlerC7 []
      respC7 (chars "gzip") rfl rfl rfl (by decide)).1 (by decide)).1,
   ((C7_gzip_negotiation id id (fun _ => rfl) routesC7 reqC7br handlerC7 []
      respC7 (chars "br") rfl rfl rfl (by decide)).2 (by decide)).1⟩

/-! ### Claim C8 -/

/-- C8: a handler error is caught at the dispatch boundary and replaced
by the bare 500 response (status 500, no headers, empty body) — `dispatch`
is a total function into responses, so nothing is re-raised past it — and
connection handling is pointwise: each connection's outcome, including a
later unrelated one, is `handle_connection` of its own chunks alone. -/
theorem C8_handler_error_500 (gz : List Char → List Char)
    (routes : List (RouteM Handler)) (req : HttpRequestM) (h : Handler)
    (segs : List (List Char × List Char))
    (hget : get_handler routes req.path = some (h, segs))
    (hraise : h req segs = .error ())
    (c1 c2 : List (List Char)) :
    dispatch gz routes req = buildBare 500 ∧
    (dispatch gz routes req).body = [] ∧
    (dispatch gz routes req).status_code = 500 ∧
    handle_connections gz routes [c1, c2] =
      [handle_connection gz routes c1, handle_connection gz routes c2] ∧
    (handle_connections gz routes [c1, c2]).getD 1 none =
      handle_connection gz routes c2 := by
  have hdisp : dispatch gz routes req = buildBare 500 := by
    unfold dispatch dispatchTry
    rw [hget]
    show (match (match h req segs with
        | Except.ok response => Except.ok (negotiate gz req response)
        | Except.error e => Except.error e) with
      | Except.ok response => response
      | Except.error _ => buildBare 500) = buildBare 500
    rw [hraise]
  exact ⟨hdisp, by rw [hdisp]; rfl, by rw [hdisp]; rfl, rfl, rfl⟩


/-- Witness for C8: the raising handler produces the bare 500, and the
second of two connections is handled independently of the first. -/
theorem C8_handler_error_500_witness :
    dispatch id routesC8 reqC8 = buildBare 500 ∧
    (handle_connections id routesC8
        [[], [chars "GET /x HTTP/1.1\r\n\r\n"]]).getD 1 none =
      handle_connection id routesC8 [chars "GET /x HTTP/1.1\r\n\r\n"] :=
  ⟨(C8_handler_error_500 id routesC8 reqC8 handlerBoom [] rfl rfl [] []).1,
   (C8_handler_error_500 id routesC8 reqC8 handlerBoom [] rfl rfl []
      [chars "GET /x HTTP/1.1\r\n\r\n"]).2.2.2.2⟩
